import Mathlib

/-!
Verification development for the Mass Effect 1 save-game container codec
(`src/save_data/mass_effect_1.rs`).

The container layout: an 8-byte leading marker (`_begin`), a 4-byte
little-endian unsigned archive offset (`zip_offset`), an opaque pre-archive
region (`_no_mans_land`) of length `zip_offset - 12`, then a compressed
archive holding the entries `player.sav` (required), `state.sav` (required)
and `WorldSavePackage.sav` (optional).

Bytes are modelled as `Fin 256`. The byte cursor (`SaveCursor`), the
fixed-size opaque field (`Dummy<8>`) and the `u32` codec live outside the
provided sources, so they are modelled from the specification; the nested
`Player`/`State` collaborators are abstracted as codec parameters, and the
external zip library is abstracted as an `ArchiveModel` (named-entry
open/pack), as the specification's Archive Multiplexer prescribes.

Rust `usize` subtraction `zip_offset as usize - 12` is translated with
release-mode wrapping semantics: `wrapSub a b = (2^64 + a - b) % 2^64`
(debug builds would panic on underflow instead).
-/

/-- A byte: an unsigned 8-bit value. -/
abbrev Byte := Fin 256

/-- Error values surfaced by decode/encode. The Rust code returns untyped
`anyhow::Error` values; this type carries one constructor for each failure
class named by the specification's error taxonomy, plus `entryNotFound` for
the zip library's nameless file-not-found error and `custom` for arbitrary
collaborator failures. Constructors the translated code never produces
(`invalidOffset`, `missingRequiredEntry`, `nestedDecodeError`) are kept so
that the corresponding specification claims are statable. -/
inductive SaveError where
  | truncatedInput
  | invalidOffset
  | corruptArchive
  | entryNotFound
  | missingRequiredEntry (name : String)
  | nestedDecodeError (name : String) (cause : SaveError)
  | custom (msg : String)
  deriving DecidableEq

/-- Modelled from the spec: the byte cursor (`SaveCursor`, declared outside
the provided sources) — a position-tracked sequential reader over an
immutable byte buffer (spec section 4.1). -/
structure SaveCursor where
  buffer : List Byte
  pos : Nat
  deriving DecidableEq

/-- A fresh cursor at position 0, as built by `SaveCursor::new`. -/
def SaveCursor.new (bytes : List Byte) : SaveCursor := ⟨bytes, 0⟩

/-- Modelled from the spec: `read(n)` returns the next `n` bytes and
advances the position; it fails with `TruncatedInput` when fewer than `n`
bytes remain (spec section 4.1). -/
def SaveCursor.read (self : SaveCursor) (n : Nat) :
    Except SaveError (List Byte × SaveCursor) :=
  if self.pos + n ≤ self.buffer.length then
    .ok ((self.buffer.drop self.pos).take n, ⟨self.buffer, self.pos + n⟩)
  else
    .error .truncatedInput

/-- Modelled from the spec: `readToEnd()` returns all remaining bytes and
moves the position to the end of the buffer; it never fails (spec
section 4.1). -/
def SaveCursor.read_to_end (self : SaveCursor) : List Byte × SaveCursor :=
  (self.buffer.drop self.pos, ⟨self.buffer, self.buffer.length⟩)

/-- Modelled from the spec: the codec capability implemented by the nested
collaborators (`Player`, `State`, declared outside the provided sources):
decode from a cursor, or append an encoding to a growable output buffer.
`serialize` returns the final buffer contents together with an optional
error, mirroring Rust's in-place mutation of `&mut Vec<u8>`: bytes already
appended before a failure stay in the buffer. -/
structure Codec (α : Type) where
  deserialize : SaveCursor → Except SaveError (α × SaveCursor)
  serialize : α → List Byte → List Byte × Option SaveError

/-- Modelled from the spec: the Archive Multiplexer (spec section 4.3), a
thin adapter over the external zip library. `openArchive` parses an archive
buffer into its named entries (decompressed, in archive order) or fails;
`pack` deterministically writes a list of named entries (the composite of
createWriter / writeEntry in call order / finish). -/
structure ArchiveModel where
  openArchive : List Byte → Option (List (String × List Byte))
  pack : List (String × List Byte) → List Byte

/-- Finds the named entry and returns its (decompressed) bytes, like
`ZipArchive::by_name`; the zip library's file-not-found error carries no
entry name. -/
def byName (es : List (String × List Byte)) (name : String) :
    Except SaveError (List Byte) :=
  match es.find? (fun e => e.1 = name) with
  | some e => .ok e.2
  | none => .error .entryNotFound

/-- Modelled from the spec: `Dummy<8>` (declared outside the provided
sources) — a fixed-length opaque span; deserialization reads the given
number of bytes verbatim. -/
def dummyDeserialize (n : Nat) (cursor : SaveCursor) :
    Except SaveError (List Byte × SaveCursor) :=
  cursor.read n

/-- Modelled from the spec: `Dummy<N>` serialization appends the stored
bytes verbatim. -/
def dummySerialize (d : List Byte) (output : List Byte) : List Byte :=
  output ++ d

/-- Little-endian byte decomposition of a 32-bit unsigned integer, as
written by `u32::serialize`. -/
def u32le (n : Nat) : List Byte :=
  [⟨n % 256, by omega⟩, ⟨n / 256 % 256, by omega⟩,
   ⟨n / 65536 % 256, by omega⟩, ⟨n / 16777216 % 256, by omega⟩]

/-- Value of a 4-byte little-endian unsigned integer. -/
def leVal4 (bs : List Byte) : Nat :=
  match bs with
  | [a, b, c, d] => a.val + 256 * b.val + 65536 * c.val + 16777216 * d.val
  | _ => 0

/-- Modelled from the spec: `u32::deserialize` reads 4 bytes and interprets
them as a little-endian unsigned integer (spec section 6). -/
def u32Deserialize (cursor : SaveCursor) : Except SaveError (Nat × SaveCursor) :=
  match cursor.read 4 with
  | .error e => .error e
  | .ok (bs, c') => .ok (leVal4 bs, c')

/-- Modelled from the spec: `u32::serialize` appends the 4 little-endian
bytes of the stored value. -/
def u32Serialize (n : Nat) (output : List Byte) : List Byte :=
  output ++ u32le n

/-- Rust release-mode `usize` wrapping subtraction: the source computes
`zip_offset as usize - 12`, which wraps modulo `2^64` on underflow. -/
def wrapSub (a b : Nat) : Nat := (2 ^ 64 + a - b) % 2 ^ 64

/-- The optional world-save package: an opaque span holding one archive
entry's bytes verbatim (source lines 110-113). -/
structure WorldSavePackage where
  data : List Byte
  deriving DecidableEq

/-- `WorldSavePackage::deserialize` (source lines 117-119): reads all bytes
remaining in the cursor and stores them. -/
def WorldSavePackage.deserialize (cursor : SaveCursor) :
    Except SaveError (WorldSavePackage × SaveCursor) :=
  let (d, c') := cursor.read_to_end
  .ok (⟨d⟩, c')

/-- `WorldSavePackage::serialize` (source lines 121-124): appends the stored
bytes to the output and always succeeds. -/
def WorldSavePackage.serialize (self : WorldSavePackage) (output : List Byte) :
    List Byte × Option SaveError :=
  (output ++ self.data, none)

/-- The decoded save-game container (source lines 18-26), parametric in the
types of the nested `Player`/`State` collaborators. -/
structure Me1SaveGame (π σ : Type) where
  _begin : List Byte
  zip_offset : Nat
  _no_mans_land : List Byte
  player : π
  state : σ
  _world_save_package : Option WorldSavePackage

/-- The world-save-package step of container decoding (source lines 52-62):
if the archive lists an entry named WorldSavePackage.sav, extract it and
decode it from a fresh cursor; otherwise leave the field unset. -/
def readWorldSavePackage (es : List (String × List Byte)) :
    Except SaveError (Option WorldSavePackage) :=
  if es.any (fun f => f.1 = "WorldSavePackage.sav") then
    match byName es "WorldSavePackage.sav" with
    | .error e => .error e
    | .ok wb =>
      match WorldSavePackage.deserialize (SaveCursor.new wb) with
      | .error e => .error e
      | .ok (w, _) => .ok (some w)
  else .ok none

/-- `Me1SaveGame::deserialize` (source lines 30-65): read the 8-byte
marker, the `u32` archive offset, then `zip_offset - 12` bytes of opaque
pre-archive data (usize wrapping subtraction); open the remaining bytes as
an archive; extract and decode `player.sav` and `state.sav` with the
nested collaborators' codecs, each from a fresh cursor; decode the optional
`WorldSavePackage.sav`. Every failure propagates unchanged. -/
def Me1SaveGame.deserialize (A : ArchiveModel) (P : Codec π) (S : Codec σ)
    (cursor : SaveCursor) :
    Except SaveError (Me1SaveGame π σ × SaveCursor) :=
  match dummyDeserialize 8 cursor with
  | .error e => .error e
  | .ok (b8, cursor) =>
    match u32Deserialize cursor with
    | .error e => .error e
    | .ok (zip_offset, cursor) =>
      match cursor.read (wrapSub zip_offset 12) with
      | .error e => .error e
      | .ok (nml, cursor) =>
        let (zipData, cursor) := cursor.read_to_end
        match A.openArchive zipData with
        | none => .error .corruptArchive
        | some es =>
          match byName es "player.sav" with
          | .error e => .error e
          | .ok pb =>
            match P.deserialize (SaveCursor.new pb) with
            | .error e => .error e
            | .ok (player, _) =>
              match byName es "state.sav" with
              | .error e => .error e
              | .ok sb =>
                match S.deserialize (SaveCursor.new sb) with
                | .error e => .error e
                | .ok (state, _) =>
                  match readWorldSavePackage es with
                  | .error e => .error e
                  | .ok wsp =>
                    .ok (⟨b8, zip_offset, nml, player, state, wsp⟩, cursor)

/-- The fixed, ordered entry list the encoder writes into the archive:
`player.sav`, then `state.sav`, then `WorldSavePackage.sav` when the field
is set (source lines 80-100). -/
def archiveEntries (pd sd : List Byte) (w : Option WorldSavePackage) :
    List (String × List Byte) :=
  [("player.sav", pd), ("state.sav", sd)] ++
    (match w with
     | some w => [("WorldSavePackage.sav", w.data)]
     | none => [])

/-- `Me1SaveGame::serialize` (source lines 67-105): append the marker, the
stored `zip_offset` (little-endian, not recomputed) and the pre-archive
region directly to the caller's output buffer; then serialize `player` and
`state` (and the world-save package when set) each to a fresh buffer, pack
them as the archive's entries in fixed order, and append the archive bytes.
A nested failure aborts before any archive bytes reach the output, but the
header bytes already appended remain there, mirroring Rust's in-place
mutation of the output vector. -/
def Me1SaveGame.serialize (A : ArchiveModel) (P : Codec π) (S : Codec σ)
    (self : Me1SaveGame π σ) (output : List Byte) :
    List Byte × Option SaveError :=
  let output := dummySerialize self._begin output
  let output := u32Serialize self.zip_offset output
  let output := output ++ self._no_mans_land
  match P.serialize self.player [] with
  | (_, some e) => (output, some e)
  | (player_data, none) =>
    match S.serialize self.state [] with
    | (_, some e) => (output, some e)
    | (state_data, none) =>
      match self._world_save_package with
      | some w =>
        match WorldSavePackage.serialize w [] with
        | (_, some e) => (output, some e)
        | (wd, none) =>
          (output ++ A.pack [("player.sav", player_data), ("state.sav", state_data),
            ("WorldSavePackage.sav", wd)], none)
      | none =>
        (output ++ A.pack [("player.sav", player_data), ("state.sav", state_data)], none)

/-- Round-trip of the archive adapter, as the specification's testable
properties assume of the external archive facility: reopening a packed
entry list yields exactly those entries. -/
def ArchiveRoundTrip (A : ArchiveModel) : Prop :=
  ∀ es, A.openArchive (A.pack es) = some es

/-- Internal round-trip stability of a nested collaborator (spec
section 4.5): any decoded value re-encodes successfully, the re-encoded
buffer decodes again, and that second decode re-encodes to the identical
buffer. -/
def RoundTripStable (P : Codec α) : Prop :=
  ∀ b x c, P.deserialize (SaveCursor.new b) = .ok (x, c) →
    ∃ b1 x1 c1, P.serialize x [] = (b1, none) ∧
      P.deserialize (SaveCursor.new b1) = .ok (x1, c1) ∧
      P.serialize x1 [] = (b1, none)

/-! ## Cursor and integer lemmas -/

/-- Characterization of a successful cursor read. -/
theorem SaveCursor.read_ok_iff (b : List Byte) (p n : Nat) (x : List Byte)
    (c' : SaveCursor) :
    SaveCursor.read ⟨b, p⟩ n = .ok (x, c') ↔
      p + n ≤ b.length ∧ x = (b.drop p).take n ∧ c' = ⟨b, p + n⟩ := by
  unfold SaveCursor.read
  by_cases h : p + n ≤ b.length
  · simp [h, eq_comm, and_assoc]
  · simp [h]

/-- Reading exactly the length of the middle segment returns that segment. -/
theorem SaveCursor.read_exact (pre x suf : List Byte) :
    SaveCursor.read ⟨pre ++ x ++ suf, pre.length⟩ x.length =
      .ok (x, ⟨pre ++ x ++ suf, pre.length + x.length⟩) := by
  rw [SaveCursor.read_ok_iff]
  refine ⟨by simp, ?_, rfl⟩
  rw [List.append_assoc, List.drop_left, List.take_left]

/-- Reading to the end from a position at the start of the tail segment
returns that tail. -/
theorem SaveCursor.read_to_end_exact (pre z : List Byte) :
    SaveCursor.read_to_end ⟨pre ++ z, pre.length⟩ =
      (z, ⟨pre ++ z, (pre ++ z).length⟩) := by
  unfold SaveCursor.read_to_end
  rw [List.drop_left]

/-- The little-endian bytes of `n` decode to `n` modulo `2^32`. -/
theorem leVal4_u32le (n : Nat) : leVal4 (u32le n) = n % 4294967296 := by
  simp only [u32le, leVal4]
  omega

/-- A 4-byte list is reproduced by re-encoding its little-endian value. -/
theorem u32le_leVal4 (a b c d : Byte) : u32le (leVal4 [a, b, c, d]) = [a, b, c, d] := by
  have ha := a.isLt
  have hb := b.isLt
  have hc := c.isLt
  have hd := d.isLt
  simp only [u32le, leVal4, List.cons.injEq, and_true, Fin.ext_iff]
  refine ⟨?_, ?_, ?_, ?_⟩ <;> omega

/-- The little-endian value of 4 bytes is below `2^32`. -/
theorem leVal4_lt (a b c d : Byte) : leVal4 [a, b, c, d] < 4294967296 := by
  have ha := a.isLt
  have hb := b.isLt
  have hc := c.isLt
  have hd := d.isLt
  simp only [leVal4]
  omega

/-- `u32le` always produces 4 bytes. -/
theorem u32le_length (n : Nat) : (u32le n).length = 4 := rfl

/-- Wrapping subtraction agrees with exact subtraction when it does not
underflow. -/
theorem wrapSub_of_le (a : Nat) (h12 : 12 ≤ a) (h : a < 2 ^ 64) :
    wrapSub a 12 = a - 12 := by
  unfold wrapSub
  omega

/-! ## A concrete archive model

A deterministic, injective entry-list serialization with a verified
re-opening function, standing in for the external zip facility in concrete
witnesses: naturals are written in unary (a run of 1-bytes closed by a
0-byte), characters as 4 little-endian bytes of their code point, strings
and payloads as length-prefixed sequences. -/

/-- Unary encoding of a natural: `n` 1-bytes then a 0-byte. -/
def encNat (n : Nat) : List Byte := List.replicate n 1 ++ [0]

/-- Decode a unary-encoded natural, returning it with the remaining bytes. -/
def decNat : List Byte → Option (Nat × List Byte)
  | [] => none
  | b :: rest =>
    if b = (1 : Byte) then
      match decNat rest with
      | none => none
      | some (n, r) => some (n + 1, r)
    else if b = (0 : Byte) then some (0, rest) else none

/-- Encoding of one character: 4 little-endian bytes of its code point. -/
def encChar (c : Char) : List Byte := u32le c.toNat

/-- Decode one character from 4 little-endian bytes. -/
def decChar : List Byte → Option (Char × List Byte)
  | b0 :: b1 :: b2 :: b3 :: rest => some (Char.ofNat (leVal4 [b0, b1, b2, b3]), rest)
  | _ => none

/-- Decode a fixed count of characters. -/
def decChars : Nat → List Byte → Option (List Char × List Byte)
  | 0, r => some ([], r)
  | n + 1, r =>
    match decChar r with
    | none => none
    | some (c, r') =>
      match decChars n r' with
      | none => none
      | some (cs, r'') => some (c :: cs, r'')

/-- Encoding of a string: character count, then each character. -/
def encStr (s : String) : List Byte :=
  encNat s.data.length ++ (s.data.map encChar).flatten

/-- Decode a string. -/
def decStr (bs : List Byte) : Option (String × List Byte) :=
  match decNat bs with
  | none => none
  | some (n, r) =>
    match decChars n r with
    | none => none
    | some (cs, r') => some (String.mk cs, r')

/-- Encoding of one named entry: name, then payload length, then payload. -/
def encEntry (e : String × List Byte) : List Byte :=
  encStr e.1 ++ encNat e.2.length ++ e.2

/-- Decode one named entry. -/
def decEntry (bs : List Byte) : Option ((String × List Byte) × List Byte) :=
  match decStr bs with
  | none => none
  | some (name, r) =>
    match decNat r with
    | none => none
    | some (k, r') =>
      if k ≤ r'.length then some ((name, r'.take k), r'.drop k) else none

/-- Decode a fixed count of entries. -/
def decEntries : Nat → List Byte → Option (List (String × List Byte) × List Byte)
  | 0, r => some ([], r)
  | n + 1, r =>
    match decEntry r with
    | none => none
    | some (e, r') =>
      match decEntries n r' with
      | none => none
      | some (es, r'') => some (e :: es, r'')

/-- The concrete archive model used in witnesses: entry count, then each
entry, via the encoders above. -/
def myArchive : ArchiveModel where
  openArchive bs :=
    match decNat bs with
    | none => none
    | some (n, r) =>
      match decEntries n r with
      | none => none
      | some (es, _) => some es
  pack es := encNat es.length ++ (es.map encEntry).flatten

/-- Unary naturals decode back, leaving the rest untouched. -/
theorem decNat_encNat (n : Nat) (rest : List Byte) :
    decNat (encNat n ++ rest) = some (n, rest) := by
  induction n with
  | zero => simp [encNat, decNat]
  | succ n ih =>
    rw [show encNat (n + 1) ++ rest = (1 : Byte) :: (encNat n ++ rest) by
      simp [encNat, List.replicate_succ]]
    simp [decNat, ih]

/-- Characters decode back, leaving the rest untouched. -/
theorem decChar_encChar (c : Char) (rest : List Byte) :
    decChar (encChar c ++ rest) = some (c, rest) := by
  have hlt : c.toNat < 4294967296 := c.val.toNat_lt_size
  show some (Char.ofNat (leVal4 (u32le c.toNat)), rest) = some (c, rest)
  rw [leVal4_u32le, Nat.mod_eq_of_lt hlt, Char.ofNat_toNat]

/-- Character sequences decode back under their count. -/
theorem decChars_enc (cs : List Char) (rest : List Byte) :
    decChars cs.length ((cs.map encChar).flatten ++ rest) = some (cs, rest) := by
  induction cs with
  | nil => simp [decChars]
  | cons c cs ih =>
    simp only [List.map_cons, List.flatten_cons, List.length_cons, List.append_assoc]
    simp [decChars, decChar_encChar, ih]

/-- Strings decode back, leaving the rest untouched. -/
theorem decStr_encStr (s : String) (rest : List Byte) :
    decStr (encStr s ++ rest) = some (s, rest) := by
  obtain ⟨cs⟩ := s
  simp only [encStr, List.append_assoc, decStr, decNat_encNat, decChars_enc]

/-- Entries decode back, leaving the rest untouched. -/
theorem decEntry_encEntry (e : String × List Byte) (rest : List Byte) :
    decEntry (encEntry e ++ rest) = some (e, rest) := by
  obtain ⟨name, d⟩ := e
  simp only [encEntry, List.append_assoc, decEntry, decStr_encStr, decNat_encNat]
  rw [if_pos (by simp), List.take_left, List.drop_left]

/-- Entry lists decode back under their count. -/
theorem decEntries_enc (es : List (String × List Byte)) (rest : List Byte) :
    decEntries es.length ((es.map encEntry).flatten ++ rest) = some (es, rest) := by
  induction es with
  | nil => simp [decEntries]
  | cons e es ih =>
    simp only [List.map_cons, List.flatten_cons, List.length_cons, List.append_assoc]
    simp [decEntries, decEntry_encEntry, ih]

/-- The concrete archive model round-trips every entry list. -/
theorem myArchive_roundtrip : ArchiveRoundTrip myArchive := by
  intro es
  have h2 : decEntries es.length ((es.map encEntry).flatten) = some (es, []) := by
    have h := decEntries_enc es []
    rwa [List.append_nil] at h
  show (match decNat (encNat es.length ++ (es.map encEntry).flatten) with
    | none => none
    | some (n, r) =>
      match decEntries n r with
      | none => none
      | some (es, _) => some es) = some es
  rw [decNat_encNat]
  simp [h2]

/-! ## Structural lemmas about container decode and encode -/

/-- A 4-byte little-endian value is below `2^32`. -/
theorem leVal4_lt_of_length (bs : List Byte) (h : bs.length = 4) :
    leVal4 bs < 4294967296 := by
  rcases bs with _ | ⟨a, _ | ⟨b, _ | ⟨c, _ | ⟨d, _ | ⟨e, t⟩⟩⟩⟩⟩
  · simp at h
  · simp at h
  · simp at h
  · simp at h
  · exact leVal4_lt a b c d
  · simp at h

/-- Any 4-byte list is reproduced by re-encoding its little-endian value. -/
theorem u32le_leVal4_of_length (bs : List Byte) (h : bs.length = 4) :
    u32le (leVal4 bs) = bs := by
  rcases bs with _ | ⟨a, _ | ⟨b, _ | ⟨c, _ | ⟨d, _ | ⟨e, t⟩⟩⟩⟩⟩
  · simp at h
  · simp at h
  · simp at h
  · simp at h
  · exact u32le_leVal4 a b c d
  · simp at h

/-- Decoding a buffer laid out as marker, offset bytes, pre-archive region
and archive bytes consumes the header deterministically and continues with
the archive stage on exactly the archive bytes. -/
theorem Me1SaveGame.deserialize_header (A : ArchiveModel) (P : Codec π) (S : Codec σ)
    (m ob nml z : List Byte)
    (hm : m.length = 8) (hob : ob.length = 4)
    (hnml : nml.length = wrapSub (leVal4 ob) 12) :
    Me1SaveGame.deserialize A P S (SaveCursor.new (m ++ (ob ++ (nml ++ z)))) =
      (match A.openArchive z with
       | none => .error .corruptArchive
       | some es =>
         match byName es "player.sav" with
         | .error e => .error e
         | .ok pb =>
           match P.deserialize (SaveCursor.new pb) with
           | .error e => .error e
           | .ok (player, _) =>
             match byName es "state.sav" with
             | .error e => .error e
             | .ok sb =>
               match S.deserialize (SaveCursor.new sb) with
               | .error e => .error e
               | .ok (state, _) =>
                 match readWorldSavePackage es with
                 | .error e => .error e
                 | .ok wsp =>
                   .ok (⟨m, leVal4 ob, nml, player, state, wsp⟩,
                     ⟨m ++ (ob ++ (nml ++ z)), (m ++ (ob ++ (nml ++ z))).length⟩)) := by
  have e1 : dummyDeserialize 8 ⟨m ++ (ob ++ (nml ++ z)), 0⟩ =
      .ok (m, ⟨m ++ (ob ++ (nml ++ z)), 8⟩) := by
    have h := SaveCursor.read_exact [] m (ob ++ (nml ++ z))
    simpa [dummyDeserialize, hm] using h
  have e2 : u32Deserialize ⟨m ++ (ob ++ (nml ++ z)), 8⟩ =
      .ok (leVal4 ob, ⟨m ++ (ob ++ (nml ++ z)), 12⟩) := by
    have h := SaveCursor.read_exact m ob (nml ++ z)
    rw [hm, hob] at h
    unfold u32Deserialize
    rw [show m ++ (ob ++ (nml ++ z)) = m ++ ob ++ (nml ++ z) from
      (List.append_assoc m ob (nml ++ z)).symm, h]
  have e3 : SaveCursor.read ⟨m ++ (ob ++ (nml ++ z)), 12⟩ (wrapSub (leVal4 ob) 12) =
      .ok (nml, ⟨m ++ (ob ++ (nml ++ z)), 12 + wrapSub (leVal4 ob) 12⟩) := by
    have h := SaveCursor.read_exact (m ++ ob) nml z
    rw [List.length_append, hm, hob, hnml] at h
    rw [show m ++ (ob ++ (nml ++ z)) = m ++ ob ++ nml ++ z by
      simp [List.append_assoc], h]
  have e4 : SaveCursor.read_to_end ⟨m ++ (ob ++ (nml ++ z)), 12 + wrapSub (leVal4 ob) 12⟩ =
      (z, ⟨m ++ (ob ++ (nml ++ z)), (m ++ (ob ++ (nml ++ z))).length⟩) := by
    have h := SaveCursor.read_to_end_exact (m ++ ob ++ nml) z
    rw [show (m ++ ob ++ nml).length = 12 + wrapSub (leVal4 ob) 12 by
      simp only [List.length_append, hm, hob, hnml]] at h
    rw [show m ++ (ob ++ (nml ++ z)) = m ++ ob ++ nml ++ z by
      simp [List.append_assoc]]
    exact h
  show Me1SaveGame.deserialize A P S ⟨m ++ (ob ++ (nml ++ z)), 0⟩ = _
  unfold Me1SaveGame.deserialize
  simp only [e1, e2, e3, e4]

/-- Decoding a buffer laid out as marker, offset bytes, pre-archive region
and archive bytes succeeds and returns exactly those components, provided
the archive opens and every nested decode succeeds. -/
theorem Me1SaveGame.deserialize_concat (A : ArchiveModel) (P : Codec π) (S : Codec σ)
    (m ob nml z : List Byte) (es : List (String × List Byte)) (pb sb : List Byte)
    (x : π) (y : σ) (w : Option WorldSavePackage) (cx cy : SaveCursor)
    (hm : m.length = 8) (hob : ob.length = 4)
    (hnml : nml.length = wrapSub (leVal4 ob) 12)
    (hz : A.openArchive z = some es)
    (hpb : byName es "player.sav" = .ok pb)
    (hx : P.deserialize (SaveCursor.new pb) = .ok (x, cx))
    (hsb : byName es "state.sav" = .ok sb)
    (hy : S.deserialize (SaveCursor.new sb) = .ok (y, cy))
    (hw : readWorldSavePackage es = .ok w) :
    Me1SaveGame.deserialize A P S (SaveCursor.new (m ++ (ob ++ (nml ++ z)))) =
      .ok (⟨m, leVal4 ob, nml, x, y, w⟩,
        ⟨m ++ (ob ++ (nml ++ z)), (m ++ (ob ++ (nml ++ z))).length⟩) := by
  rw [Me1SaveGame.deserialize_header A P S m ob nml z hm hob hnml]
  simp only [hz, hpb, hx, hsb, hy, hw]

/-- Inversion of a successful container decode: the input buffer decomposes
as marker, stored-offset bytes, pre-archive region and archive bytes, with
the recorded field lengths, a successfully opened archive, and successful
nested decodes of both required entries and of the optional world-save
package. -/
theorem Me1SaveGame.deserialize_ok_inv (A : ArchiveModel) (P : Codec π) (S : Codec σ)
    (B : List Byte) (C : Me1SaveGame π σ) (c0 : SaveCursor)
    (h : Me1SaveGame.deserialize A P S (SaveCursor.new B) = .ok (C, c0)) :
    ∃ z es pb sb cx cy,
      B = C._begin ++ (u32le C.zip_offset ++ (C._no_mans_land ++ z)) ∧
      C._begin.length = 8 ∧ C.zip_offset < 4294967296 ∧
      C._no_mans_land.length = wrapSub C.zip_offset 12 ∧
      A.openArchive z = some es ∧
      byName es "player.sav" = .ok pb ∧
      P.deserialize (SaveCursor.new pb) = .ok (C.player, cx) ∧
      byName es "state.sav" = .ok sb ∧
      S.deserialize (SaveCursor.new sb) = .ok (C.state, cy) ∧
      readWorldSavePackage es = .ok C._world_save_package ∧
      c0 = ⟨B, B.length⟩ := by
  unfold Me1SaveGame.deserialize at h
  rcases hr1 : dummyDeserialize 8 (SaveCursor.new B) with e | ⟨b8, c1⟩
  · rw [hr1] at h; exact Except.noConfusion h
  simp only [hr1] at h
  rw [show dummyDeserialize 8 (SaveCursor.new B) = SaveCursor.read ⟨B, 0⟩ 8 from rfl,
    SaveCursor.read_ok_iff] at hr1
  obtain ⟨hlen8, hb8, hc1⟩ := hr1
  subst hc1
  rcases hr2 : u32Deserialize ⟨B, 0 + 8⟩ with e | ⟨zoff, c2⟩
  · rw [hr2] at h; exact Except.noConfusion h
  simp only [hr2] at h
  unfold u32Deserialize at hr2
  rcases hr2' : SaveCursor.read ⟨B, 0 + 8⟩ 4 with e | ⟨ob, c2'⟩
  · rw [hr2'] at hr2; exact Except.noConfusion hr2
  rw [hr2'] at hr2
  rw [SaveCursor.read_ok_iff] at hr2'
  obtain ⟨hlen12, hob, hc2'⟩ := hr2'
  injection hr2 with hr2
  injection hr2 with hzoff hc2
  subst hc2' hc2 hzoff
  rcases hr3 : SaveCursor.read ⟨B, 0 + 8 + 4⟩ (wrapSub (leVal4 ob) 12) with e | ⟨nml, c3⟩
  · rw [hr3] at h; exact Except.noConfusion h
  simp only [hr3] at h
  rw [SaveCursor.read_ok_iff] at hr3
  obtain ⟨hlenk, hnml, hc3⟩ := hr3
  subst hc3
  dsimp only [SaveCursor.read_to_end] at h
  simp only [show (0 : Nat) + 8 + 4 = 12 from rfl] at h
  rcases hr5 : A.openArchive (B.drop (12 + wrapSub (leVal4 ob) 12)) with _ | es
  · rw [hr5] at h; exact Except.noConfusion h
  simp only [hr5] at h
  rcases hr6 : byName es "player.sav" with e | pb
  · rw [hr6] at h; exact Except.noConfusion h
  simp only [hr6] at h
  rcases hr7 : P.deserialize (SaveCursor.new pb) with e | ⟨player, cx⟩
  · rw [hr7] at h; exact Except.noConfusion h
  simp only [hr7] at h
  rcases hr8 : byName es "state.sav" with e | sb
  · rw [hr8] at h; exact Except.noConfusion h
  simp only [hr8] at h
  rcases hr9 : S.deserialize (SaveCursor.new sb) with e | ⟨st, cy⟩
  · rw [hr9] at h; exact Except.noConfusion h
  simp only [hr9] at h
  rcases hr10 : readWorldSavePackage es with e | wsp
  · rw [hr10] at h; exact Except.noConfusion h
  simp only [hr10] at h
  injection h with h
  injection h with hC hc0
  subst hC
  refine ⟨B.drop (12 + wrapSub (leVal4 ob) 12), es, pb, sb, cx, cy,
    ?_, ?_, ?_, ?_, hr5, hr6, hr7, hr8, hr9, hr10, ?_⟩
  · have hobv : u32le (leVal4 ob) = ob := by
      apply u32le_leVal4_of_length
      rw [hob]
      simp only [List.length_take, List.length_drop]
      omega
    show B = b8 ++ (u32le (leVal4 ob) ++ (nml ++ B.drop (12 + wrapSub (leVal4 ob) 12)))
    rw [hobv, hnml, hb8, hob]
    simp only [List.drop_zero, show (0 : Nat) + 8 = 8 from rfl,
      show (0 : Nat) + 8 + 4 = 12 from rfl]
    rw [show List.drop (12 + wrapSub (leVal4 (List.take 4 (List.drop 8 B))) 12) B =
        List.drop (wrapSub (leVal4 (List.take 4 (List.drop 8 B))) 12) (List.drop 12 B) by
      rw [List.drop_drop]]
    rw [List.take_append_drop]
    rw [show List.drop 12 B = List.drop 4 (List.drop 8 B) by rw [List.drop_drop]]
    rw [List.take_append_drop, List.take_append_drop]
  · show b8.length = 8
    rw [hb8]
    simp only [List.drop_zero, List.length_take]
    omega
  · show leVal4 ob < 4294967296
    apply leVal4_lt_of_length
    rw [hob]
    simp only [List.length_take, List.length_drop]
    omega
  · show nml.length = wrapSub (leVal4 ob) 12
    rw [hnml]
    simp only [List.length_take, List.length_drop]
    omega
  · exact hc0.symm

/-- An entry name occurs in the name list iff the boolean entry scan
succeeds. -/
theorem wsp_mem_iff_any (es : List (String × List Byte)) (n : String) :
    n ∈ es.map Prod.fst ↔ es.any (fun f => f.1 = n) = true := by
  simp [List.any_eq_true, List.mem_map]

/-- Looking up a name that is absent from the archive fails with the
nameless entry-not-found error. -/
theorem byName_not_mem (es : List (String × List Byte)) (n : String)
    (h : n ∉ es.map Prod.fst) : byName es n = .error .entryNotFound := by
  unfold byName
  rw [List.find?_eq_none.mpr]
  intro x hx
  simp only [decide_eq_true_eq]
  intro hfst
  exact h (List.mem_map.mpr ⟨x, hx, hfst⟩)

/-- When the world-save-package entry is absent, the optional field decodes
to `none`. -/
theorem readWorldSavePackage_not_mem (es : List (String × List Byte))
    (h : "WorldSavePackage.sav" ∉ es.map Prod.fst) :
    readWorldSavePackage es = .ok none := by
  have hany : es.any (fun f => f.1 = "WorldSavePackage.sav") = false := by
    rcases hb : es.any (fun f => f.1 = "WorldSavePackage.sav") with _ | _
    · rfl
    · exact absurd ((wsp_mem_iff_any es _).mpr hb) h
  simp [readWorldSavePackage, hany]

/-- When the world-save-package entry is found, the optional field decodes
to exactly that entry's bytes. -/
theorem readWorldSavePackage_found (es : List (String × List Byte)) (wb : List Byte)
    (h : byName es "WorldSavePackage.sav" = .ok wb) :
    readWorldSavePackage es = .ok (some ⟨wb⟩) := by
  have hbn := h
  unfold byName at h
  rcases hf : es.find? (fun e => e.1 = "WorldSavePackage.sav") with _ | e0
  · rw [hf] at h; exact Except.noConfusion h
  have hmem := List.mem_of_find?_eq_some hf
  have hpred := List.find?_some hf
  have hany : es.any (fun f => f.1 = "WorldSavePackage.sav") = true :=
    List.any_eq_true.mpr ⟨e0, hmem, hpred⟩
  simp only [readWorldSavePackage, hany, if_true, hbn]
  rfl

/-- A decoded optional world-save package of `none` means the entry was
absent from the archive. -/
theorem readWorldSavePackage_none_inv (es : List (String × List Byte))
    (h : readWorldSavePackage es = .ok none) :
    "WorldSavePackage.sav" ∉ es.map Prod.fst := by
  intro hmem
  have hany := (wsp_mem_iff_any es _).mp hmem
  unfold readWorldSavePackage at h
  rw [if_pos hany] at h
  rcases hf : byName es "WorldSavePackage.sav" with e | wb
  · rw [hf] at h; exact Except.noConfusion h
  · rw [hf] at h
    simp only [WorldSavePackage.deserialize, SaveCursor.read_to_end] at h
    injection h with h
    exact Option.noConfusion h

/-- A decoded optional world-save package of `some w` means the entry was
present and `w` holds exactly its bytes. -/
theorem readWorldSavePackage_some_inv (es : List (String × List Byte))
    (w : WorldSavePackage) (h : readWorldSavePackage es = .ok (some w)) :
    byName es "WorldSavePackage.sav" = .ok w.data := by
  unfold readWorldSavePackage at h
  by_cases hany : es.any (fun f => f.1 = "WorldSavePackage.sav") = true
  · rw [if_pos hany] at h
    rcases hf : byName es "WorldSavePackage.sav" with e | wb
    · rw [hf] at h; exact Except.noConfusion h
    · rw [hf] at h
      simp only [WorldSavePackage.deserialize, SaveCursor.read_to_end] at h
      injection h with h
      injection h with h
      rw [← h]
      simp only [SaveCursor.new, List.drop_zero]
  · rw [if_neg hany] at h
    injection h with h
    exact Option.noConfusion h

/-- Encoding always lays the output out as the caller's bytes, then the
marker, the stored offset in little-endian, the pre-archive region, and
finally the archive bytes (empty on failure). -/
theorem Me1SaveGame.serialize_shape (A : ArchiveModel) (P : Codec π) (S : Codec σ)
    (C : Me1SaveGame π σ) (out : List Byte) :
    ∃ rest e, Me1SaveGame.serialize A P S C out =
      (out ++ (C._begin ++ (u32le C.zip_offset ++ (C._no_mans_land ++ rest))), e) := by
  unfold Me1SaveGame.serialize dummySerialize u32Serialize
  rcases hp : P.serialize C.player [] with ⟨pd, _ | e⟩
  · rcases hs : S.serialize C.state [] with ⟨sd, _ | e⟩
    · rcases hw : C._world_save_package with _ | w
      · exact ⟨A.pack [("player.sav", pd), ("state.sav", sd)], none, by
          simp [hp, hs, hw, List.append_assoc]⟩
      · exact ⟨A.pack [("player.sav", pd), ("state.sav", sd),
          ("WorldSavePackage.sav", w.data)], none, by
          simp [hp, hs, hw, WorldSavePackage.serialize, List.append_assoc]⟩
    · exact ⟨[], some e, by simp [hp, hs, List.append_assoc]⟩
  · exact ⟨[], some e, by simp [hp, List.append_assoc]⟩

/-- The encoder's entry list always yields `player.sav` first. -/
theorem byName_entries_player (pd sd : List Byte) (w : Option WorldSavePackage) :
    byName (archiveEntries pd sd w) "player.sav" = .ok pd := by
  cases w <;> simp [archiveEntries, byName]

/-- The encoder's entry list always yields `state.sav` second. -/
theorem byName_entries_state (pd sd : List Byte) (w : Option WorldSavePackage) :
    byName (archiveEntries pd sd w) "state.sav" = .ok sd := by
  cases w <;> simp [archiveEntries, byName]

/-- The encoder's entry list yields the world-save-package bytes when the
field is set. -/
theorem byName_entries_wsp (pd sd : List Byte) (w : WorldSavePackage) :
    byName (archiveEntries pd sd (some w)) "WorldSavePackage.sav" = .ok w.data := by
  simp [archiveEntries, byName]

/-- Decoding the optional entry from an encoder entry list without a
world-save package yields `none`. -/
theorem rwsp_entries_none (pd sd : List Byte) :
    readWorldSavePackage (archiveEntries pd sd none) = .ok none := by
  simp [archiveEntries, readWorldSavePackage]

/-- Decoding the optional entry from an encoder entry list with a
world-save package yields it back exactly. -/
theorem rwsp_entries_some (pd sd : List Byte) (w : WorldSavePackage) :
    readWorldSavePackage (archiveEntries pd sd (some w)) = .ok (some w) := by
  cases w with
  | mk d => exact readWorldSavePackage_found _ d (byName_entries_wsp pd sd ⟨d⟩)

/-- Encoding with successful nested encodes produces the header followed by
the packed fixed-order entry list, and reports no error. -/
theorem Me1SaveGame.serialize_ok (A : ArchiveModel) (P : Codec π) (S : Codec σ)
    (C : Me1SaveGame π σ) (out pd sd : List Byte)
    (hp : P.serialize C.player [] = (pd, none))
    (hs : S.serialize C.state [] = (sd, none)) :
    Me1SaveGame.serialize A P S C out =
      (out ++ (C._begin ++ (u32le C.zip_offset ++ (C._no_mans_land ++
        A.pack (archiveEntries pd sd C._world_save_package)))), none) := by
  unfold Me1SaveGame.serialize dummySerialize u32Serialize
  rcases hw : C._world_save_package with _ | w
  · simp [hp, hs, archiveEntries, List.append_assoc]
  · simp [hp, hs, archiveEntries, WorldSavePackage.serialize, List.append_assoc]

/-! ## Claim theorems -/

/-- C1. Round-trip stability: for every buffer B on which container decode
succeeds yielding C, encoding C yields a buffer B1; decoding B1 succeeds
yielding C1, and encoding C1 yields B2 with B1 equal to B2 byte-for-byte.
Stated for any archive facility satisfying the multiplexer round-trip
contract and any nested collaborators satisfying the specification's
internal round-trip stability requirement. -/
theorem me1_roundtrip_stability (A : ArchiveModel) (P : Codec π) (S : Codec σ)
    (hA : ArchiveRoundTrip A) (hP : RoundTripStable P) (hS : RoundTripStable S)
    (B : List Byte) (C : Me1SaveGame π σ) (c0 : SaveCursor)
    (h : Me1SaveGame.deserialize A P S (SaveCursor.new B) = .ok (C, c0)) :
    ∃ B1 C1 c1, Me1SaveGame.serialize A P S C [] = (B1, none) ∧
      Me1SaveGame.deserialize A P S (SaveCursor.new B1) = .ok (C1, c1) ∧
      Me1SaveGame.serialize A P S C1 [] = (B1, none) := by
  obtain ⟨z, es, pb, sb, cx, cy, hB, hm8, hoff, hnml, hz, hpb, hx, hsb, hy, hw, hc0⟩ :=
    Me1SaveGame.deserialize_ok_inv A P S B C c0 h
  obtain ⟨pd, x1, cx1, hpser, hpdes, hpser1⟩ := hP pb C.player cx hx
  obtain ⟨sd, y1, cy1, hsser, hsdes, hsser1⟩ := hS sb C.state cy hy
  have hval : leVal4 (u32le C.zip_offset) = C.zip_offset := by
    rw [leVal4_u32le]
    exact Nat.mod_eq_of_lt hoff
  have henc := Me1SaveGame.serialize_ok A P S C [] pd sd hpser hsser
  rw [List.nil_append] at henc
  have hw' : readWorldSavePackage (archiveEntries pd sd C._world_save_package) =
      .ok C._world_save_package := by
    rcases hwv : C._world_save_package with _ | w
    · exact rwsp_entries_none pd sd
    · exact rwsp_entries_some pd sd w
  have hre := Me1SaveGame.deserialize_concat A P S
    C._begin (u32le C.zip_offset) C._no_mans_land
    (A.pack (archiveEntries pd sd C._world_save_package))
    (archiveEntries pd sd C._world_save_package) pd sd x1 y1
    C._world_save_package cx1 cy1
    hm8 (u32le_length C.zip_offset) (by rw [hval]; exact hnml)
    (hA (archiveEntries pd sd C._world_save_package))
    (byName_entries_player pd sd C._world_save_package) hpdes
    (byName_entries_state pd sd C._world_save_package) hsdes hw'
  rw [hval] at hre
  have henc1 := Me1SaveGame.serialize_ok A P S
    ⟨C._begin, C.zip_offset, C._no_mans_land, x1, y1, C._world_save_package⟩
    [] pd sd hpser1 hsser1
  rw [List.nil_append] at henc1
  exact ⟨_, _, _, henc, hre, henc1⟩

/-- C2. Opaque preservation: when a decoded container is re-encoded and the
re-encoded buffer decodes again, the leading 8-byte marker and the opaque
pre-archive region of the re-decoded container equal those of the original
byte-for-byte. -/
theorem me1_opaque_preservation (A : ArchiveModel) (P : Codec π) (S : Codec σ)
    (B B1 : List Byte) (C C1 : Me1SaveGame π σ) (c0 c1 : SaveCursor)
    (h : Me1SaveGame.deserialize A P S (SaveCursor.new B) = .ok (C, c0))
    (henc : Me1SaveGame.serialize A P S C [] = (B1, none))
    (h1 : Me1SaveGame.deserialize A P S (SaveCursor.new B1) = .ok (C1, c1)) :
    C1._begin = C._begin ∧ C1._no_mans_land = C._no_mans_land := by
  obtain ⟨z, es, pb, sb, cx, cy, hB, hm8, hoff, hnml, -, -, -, -, -, -, -⟩ :=
    Me1SaveGame.deserialize_ok_inv A P S B C c0 h
  obtain ⟨rest, e, hshape⟩ := Me1SaveGame.serialize_shape A P S C []
  rw [henc, List.nil_append] at hshape
  injection hshape with hB1 he
  obtain ⟨z1, es1, pb1, sb1, cx1, cy1, hB1d, hm81, hoff1, hnml1, -, -, -, -, -, -, -⟩ :=
    Me1SaveGame.deserialize_ok_inv A P S B1 C1 c1 h1
  have heq : C1._begin ++ (u32le C1.zip_offset ++ (C1._no_mans_land ++ z1)) =
      C._begin ++ (u32le C.zip_offset ++ (C._no_mans_land ++ rest)) := by
    rw [← hB1d, hB1]
  obtain ⟨hbegin, heq2⟩ := List.append_inj heq (by rw [hm81, hm8])
  obtain ⟨hoffb, heq3⟩ := List.append_inj heq2 (by rw [u32le_length, u32le_length])
  have hoffeq : C1.zip_offset = C.zip_offset := by
    have := congrArg leVal4 hoffb
    rw [leVal4_u32le, leVal4_u32le, Nat.mod_eq_of_lt hoff1, Nat.mod_eq_of_lt hoff] at this
    exact this
  obtain ⟨hnmleq, -⟩ := List.append_inj heq3 (by rw [hnml1, hnml, hoffeq])
  exact ⟨hbegin, hnmleq⟩

/-! ## Concrete collaborators and witness data -/

/-- An opaque nested collaborator: decode takes all remaining bytes, encode
appends them (the shape the specification assigns to opaque record
variants). -/
def opqCodec : Codec (List Byte) where
  deserialize c := let (d, c') := c.read_to_end; .ok (d, c')
  serialize x output := (output ++ x, none)

/-- The opaque collaborator is internally round-trip stable. -/
theorem opq_roundtrip : RoundTripStable opqCodec := by
  intro b x c h
  refine ⟨[] ++ x, x, ⟨[] ++ x, ([] ++ x).length⟩, rfl, ?_, rfl⟩
  rfl

/-- A trivial nested collaborator that stores nothing. -/
def unitCodec : Codec Unit where
  deserialize c := .ok ((), c)
  serialize _ output := (output, none)

/-- A collaborator whose encode always fails (leaving the buffer as given),
for exercising the encode failure path. -/
def failSerCodec : Codec Unit where
  deserialize c := .ok ((), c)
  serialize _ output := (output, some (.custom "player serialize failed"))

/-- A collaborator whose decode always fails, for exercising the nested
decode failure path. -/
def failDeserCodec : Codec Unit where
  deserialize _ := .error (.custom "player decode failed")
  serialize _ output := (output, none)

/-- A concrete well-formed save buffer: zeroed marker, archive offset 12
(hence an empty pre-archive region), and an archive holding small player
and state payloads and no world-save package. -/
def witnessBuffer : List Byte :=
  List.replicate 8 0 ++ (u32le 12 ++ myArchive.pack (archiveEntries [1, 2] [3] none))

/-- The container value that decoding `witnessBuffer` produces. -/
def witnessContainer : Me1SaveGame (List Byte) (List Byte) :=
  ⟨List.replicate 8 0, 12, [], [1, 2], [3], none⟩

/-- C3. The specification says a stored archive offset below 12 must fail
with InvalidOffset without underflow; the code instead computes the
unchecked usize subtraction `zip_offset as usize - 12`, which underflows.
Evaluated at a 12-byte all-zero buffer (archive offset 0) under Rust
release-mode wrapping semantics, the wrapped length makes the following
cursor read fail with the truncation error, not InvalidOffset (debug
builds would panic at the subtraction instead). -/
theorem me1_offset_underflow :
    Me1SaveGame.deserialize myArchive unitCodec unitCodec
      (SaveCursor.new (List.replicate 12 (0 : Byte))) = .error .truncatedInput := by
  rfl

/-- Witness for C1: the round-trip theorem applied to the concrete
`witnessBuffer` with the concrete archive model and opaque collaborators. -/
theorem me1_roundtrip_stability_witness :
    ∃ B1 C1 c1,
      Me1SaveGame.serialize myArchive opqCodec opqCodec witnessContainer [] = (B1, none) ∧
      Me1SaveGame.deserialize myArchive opqCodec opqCodec (SaveCursor.new B1) =
        .ok (C1, c1) ∧
      Me1SaveGame.serialize myArchive opqCodec opqCodec C1 [] = (B1, none) :=
  me1_roundtrip_stability myArchive opqCodec opqCodec myArchive_roundtrip
    opq_roundtrip opq_roundtrip witnessBuffer witnessContainer
    ⟨witnessBuffer, witnessBuffer.length⟩ (by rfl)

/-- A successful lookup means the name occurs in the archive. -/
theorem byName_ok_mem (es : List (String × List Byte)) (n : String) (wb : List Byte)
    (h : byName es n = .ok wb) : n ∈ es.map Prod.fst := by
  unfold byName at h
  rcases hf : es.find? (fun e => e.1 = n) with _ | e0
  · rw [hf] at h; exact Except.noConfusion h
  · have hmem := List.mem_of_find?_eq_some hf
    have hpred := List.find?_some hf
    simp only [decide_eq_true_eq] at hpred
    exact List.mem_map.mpr ⟨e0, hmem, hpred⟩

/-- Inversion of a successful encode: both nested encodes succeeded and the
output is the header followed by the packed fixed-order entry list. -/
theorem Me1SaveGame.serialize_ok_inv (A : ArchiveModel) (P : Codec π) (S : Codec σ)
    (C : Me1SaveGame π σ) (out B1 : List Byte)
    (h : Me1SaveGame.serialize A P S C out = (B1, none)) :
    ∃ pd sd, P.serialize C.player [] = (pd, none) ∧
      S.serialize C.state [] = (sd, none) ∧
      B1 = out ++ (C._begin ++ (u32le C.zip_offset ++ (C._no_mans_land ++
        A.pack (archiveEntries pd sd C._world_save_package)))) := by
  unfold Me1SaveGame.serialize dummySerialize u32Serialize at h
  rcases hp : P.serialize C.player [] with ⟨pd, _ | e⟩
  · rcases hs : S.serialize C.state [] with ⟨sd, _ | e⟩
    · refine ⟨pd, sd, rfl, rfl, ?_⟩
      rcases hw : C._world_save_package with _ | w
      · rw [hp, hs, hw] at h
        injection h with h1 h2
        rw [← h1]
        simp [archiveEntries, List.append_assoc]
      · rw [hp, hs, hw] at h
        simp only [WorldSavePackage.serialize] at h
        injection h with h1 h2
        rw [← h1]
        simp [archiveEntries, List.append_assoc]
    · rw [hp, hs] at h
      injection h with h1 h2
      exact Option.noConfusion h2
  · rw [hp] at h
    injection h with h1 h2
    exact Option.noConfusion h2

/-- C4 (amended). For every input buffer whose header parses and whose
post-header bytes open as a valid archive but which lacks the entry
player.sav (or lacks state.sav, when player.sav is present and decodes),
container decode fails with the archive facility's nameless entry-not-found
error — the code propagates the archive library's lookup failure unchanged
and attaches no entry name — and no container value is returned. -/
theorem me1_missing_entry_error (A : ArchiveModel) (P : Codec π) (S : Codec σ)
    (m ob nml z : List Byte) (es : List (String × List Byte))
    (hm : m.length = 8) (hob : ob.length = 4)
    (hnml : nml.length = wrapSub (leVal4 ob) 12)
    (hz : A.openArchive z = some es)
    (hmiss : "player.sav" ∉ es.map Prod.fst ∨
      ("state.sav" ∉ es.map Prod.fst ∧
        ∃ pb x cx, byName es "player.sav" = .ok pb ∧
          P.deserialize (SaveCursor.new pb) = .ok (x, cx))) :
    Me1SaveGame.deserialize A P S (SaveCursor.new (m ++ (ob ++ (nml ++ z)))) =
      .error .entryNotFound := by
  rw [Me1SaveGame.deserialize_header A P S m ob nml z hm hob hnml]
  rcases hmiss with hp | ⟨hs, pb, x, cx, hpb, hx⟩
  · simp only [hz, byName_not_mem es _ hp]
  · simp only [hz, hpb, hx, byName_not_mem es _ hs]

/-- Counterexample to C4 as stated: a buffer whose archive holds only
state.sav decodes to the archive library's nameless entry-not-found error,
not to a MissingRequiredEntry error naming the absent player.sav. -/
theorem me1_missing_entry_counterexample :
    Me1SaveGame.deserialize myArchive unitCodec unitCodec
      (SaveCursor.new (List.replicate 8 0 ++
        (u32le 12 ++ myArchive.pack [("state.sav", [3])]))) =
      .error .entryNotFound ∧
    SaveError.entryNotFound ≠ SaveError.missingRequiredEntry "player.sav" :=
  ⟨by rfl, by decide⟩

/-- Witness for the amended C4: the missing-entry theorem applied to a
concrete archive holding only state.sav. -/
theorem me1_missing_entry_error_witness :
    Me1SaveGame.deserialize myArchive unitCodec unitCodec
      (SaveCursor.new (List.replicate 8 0 ++ (u32le 12 ++ (([] : List Byte) ++
        myArchive.pack [("state.sav", [3])])))) = .error .entryNotFound :=
  me1_missing_entry_error myArchive unitCodec unitCodec
    (List.replicate 8 0) (u32le 12) [] (myArchive.pack [("state.sav", [3])])
    [("state.sav", [3])] (by rfl) rfl (by rfl)
    (myArchive_roundtrip [("state.sav", [3])]) (Or.inl (by decide))

/-- C5. For every container value and caller buffer, encode writes the
output as the caller's bytes, then the 8 leading marker bytes, then the
stored archive offset as 4 little-endian bytes exactly as held (not
recomputed from the pre-archive region's length), then the pre-archive
region verbatim, before any archive bytes. -/
theorem me1_header_layout (A : ArchiveModel) (P : Codec π) (S : Codec σ)
    (C : Me1SaveGame π σ) (out : List Byte) :
    ∃ rest e, Me1SaveGame.serialize A P S C out =
      (out ++ (C._begin ++ (u32le C.zip_offset ++ (C._no_mans_land ++ rest))), e) :=
  Me1SaveGame.serialize_shape A P S C out

/-- C7 (amended). When a nested collaborator's decode fails, container
decode fails with exactly the collaborator's own error, propagated
unchanged: no wrapper is added and no entry name is attached. -/
theorem me1_nested_error_propagates (A : ArchiveModel) (P : Codec π) (S : Codec σ)
    (m ob nml z : List Byte) (es : List (String × List Byte)) (e : SaveError)
    (hm : m.length = 8) (hob : ob.length = 4)
    (hnml : nml.length = wrapSub (leVal4 ob) 12)
    (hz : A.openArchive z = some es)
    (hfail : (∃ pb, byName es "player.sav" = .ok pb ∧
        P.deserialize (SaveCursor.new pb) = .error e) ∨
      (∃ pb x cx sb, byName es "player.sav" = .ok pb ∧
        P.deserialize (SaveCursor.new pb) = .ok (x, cx) ∧
        byName es "state.sav" = .ok sb ∧
        S.deserialize (SaveCursor.new sb) = .error e)) :
    Me1SaveGame.deserialize A P S (SaveCursor.new (m ++ (ob ++ (nml ++ z)))) =
      .error e := by
  rw [Me1SaveGame.deserialize_header A P S m ob nml z hm hob hnml]
  rcases hfail with ⟨pb, hpb, hp⟩ | ⟨pb, x, cx, sb, hpb, hp, hsb, hs⟩
  · simp only [hz, hpb, hp]
  · simp only [hz, hpb, hp, hsb, hs]

/-- Counterexample to C7 as stated: a failing player collaborator's error
comes back from container decode untouched — it is the bare cause, not a
NestedDecodeError wrapper carrying the entry name. -/
theorem me1_nested_error_counterexample :
    Me1SaveGame.deserialize myArchive failDeserCodec unitCodec
      (SaveCursor.new (List.replicate 8 0 ++
        (u32le 12 ++ myArchive.pack [("player.sav", []), ("state.sav", [])]))) =
      .error (.custom "player decode failed") ∧
    SaveError.custom "player decode failed" ≠
      SaveError.nestedDecodeError "player.sav" (.custom "player decode failed") :=
  ⟨by rfl, by decide⟩

/-- Witness for the amended C7: nested-failure propagation applied to a
concrete archive and an always-failing player collaborator. -/
theorem me1_nested_error_propagates_witness :
    Me1SaveGame.deserialize myArchive failDeserCodec unitCodec
      (SaveCursor.new (List.replicate 8 0 ++ (u32le 12 ++ (([] : List Byte) ++
        myArchive.pack [("player.sav", []), ("state.sav", [])])))) =
      .error (.custom "player decode failed") :=
  me1_nested_error_propagates myArchive failDeserCodec unitCodec
    (List.replicate 8 0) (u32le 12) []
    (myArchive.pack [("player.sav", []), ("state.sav", [])])
    [("player.sav", []), ("state.sav", [])] (.custom "player decode failed")
    (by rfl) rfl (by rfl)
    (myArchive_roundtrip [("player.sav", []), ("state.sav", [])])
    (Or.inl ⟨[], by rfl, rfl⟩)

/-- C6. Optional-entry fidelity: for every successfully decoded buffer, the
world-save-package field is set iff the decoded archive contains an entry
named WorldSavePackage.sav; when set, its stored bytes equal that entry's
decompressed bytes exactly; and when unset, a successful re-encode yields a
buffer whose archive contains no WorldSavePackage.sav entry. -/
theorem me1_world_package_fidelity (A : ArchiveModel) (P : Codec π) (S : Codec σ)
    (hA : ArchiveRoundTrip A) (B : List Byte) (C : Me1SaveGame π σ)
    (c0 : SaveCursor) (es : List (String × List Byte))
    (h : Me1SaveGame.deserialize A P S (SaveCursor.new B) = .ok (C, c0))
    (hes : A.openArchive (B.drop (12 + wrapSub C.zip_offset 12)) = some es) :
    (C._world_save_package.isSome ↔ "WorldSavePackage.sav" ∈ es.map Prod.fst) ∧
    (∀ w, C._world_save_package = some w →
      byName es "WorldSavePackage.sav" = .ok w.data) ∧
    (C._world_save_package = none →
      ∀ B1, Me1SaveGame.serialize A P S C [] = (B1, none) →
        ∃ es1, A.openArchive (B1.drop (12 + wrapSub C.zip_offset 12)) = some es1 ∧
          "WorldSavePackage.sav" ∉ es1.map Prod.fst) := by
  obtain ⟨z, es0, pb, sb, cx, cy, hB, hm8, hoff, hnml, hz, hpb, hx, hsb, hy, hw, hc0⟩ :=
    Me1SaveGame.deserialize_ok_inv A P S B C c0 h
  have hdz : B.drop (12 + wrapSub C.zip_offset 12) = z := by
    rw [hB, show C._begin ++ (u32le C.zip_offset ++ (C._no_mans_land ++ z)) =
      (C._begin ++ (u32le C.zip_offset ++ C._no_mans_land)) ++ z by
      simp [List.append_assoc]]
    exact List.drop_left' (by
      simp only [List.length_append, hm8, u32le_length, hnml]
      omega)
  rw [hdz, hz] at hes
  injection hes with hes
  subst hes
  refine ⟨?_, ?_, ?_⟩
  · rcases hwv : C._world_save_package with _ | w
    · rw [hwv] at hw
      have hnm := readWorldSavePackage_none_inv es0 hw
      simp [hnm]
    · rw [hwv] at hw
      have hbm := readWorldSavePackage_some_inv es0 w hw
      simp [byName_ok_mem es0 _ _ hbm]
  · intro w hwv
    rw [hwv] at hw
    exact readWorldSavePackage_some_inv es0 w hw
  · intro hnone B1 henc
    obtain ⟨pd, sd, hpser, hsser, hB1⟩ :=
      Me1SaveGame.serialize_ok_inv A P S C [] B1 henc
    rw [hnone, List.nil_append] at hB1
    refine ⟨archiveEntries pd sd none, ?_, ?_⟩
    · have hd1 : B1.drop (12 + wrapSub C.zip_offset 12) =
          A.pack (archiveEntries pd sd none) := by
        rw [hB1, show C._begin ++ (u32le C.zip_offset ++ (C._no_mans_land ++
          A.pack (archiveEntries pd sd none))) =
          (C._begin ++ (u32le C.zip_offset ++ C._no_mans_land)) ++
            A.pack (archiveEntries pd sd none) by simp [List.append_assoc]]
        exact List.drop_left' (by
          simp only [List.length_append, hm8, u32le_length, hnml]
          omega)
      rw [hd1]
      exact hA (archiveEntries pd sd none)
    · simp [archiveEntries]

/-- Witness for C6: optional-entry fidelity at the concrete witness buffer,
whose archive has no world-save package. -/
theorem me1_world_package_fidelity_witness :
    (witnessContainer._world_save_package.isSome ↔
      "WorldSavePackage.sav" ∈ (archiveEntries [1, 2] [3] none).map Prod.fst) ∧
    (∀ w, witnessContainer._world_save_package = some w →
      byName (archiveEntries [1, 2] [3] none) "WorldSavePackage.sav" = .ok w.data) ∧
    (witnessContainer._world_save_package = none →
      ∀ B1, Me1SaveGame.serialize myArchive opqCodec opqCodec witnessContainer [] =
          (B1, none) →
        ∃ es1, myArchive.openArchive
            (B1.drop (12 + wrapSub witnessContainer.zip_offset 12)) = some es1 ∧
          "WorldSavePackage.sav" ∉ es1.map Prod.fst) :=
  me1_world_package_fidelity myArchive opqCodec opqCodec myArchive_roundtrip
    witnessBuffer witnessContainer ⟨witnessBuffer, witnessBuffer.length⟩
    (archiveEntries [1, 2] [3] none) (by rfl) (by rfl)

/-- C8. Entry order on encode: whenever encode succeeds, the archive
written after the header packs exactly the entries player.sav (first,
holding the player encoding), state.sav (second, holding the state
encoding), and WorldSavePackage.sav (third) iff the world-save-package
field is set; no other entries are written. -/
theorem me1_entry_order (A : ArchiveModel) (P : Codec π) (S : Codec σ)
    (C : Me1SaveGame π σ) (out B1 : List Byte)
    (h : Me1SaveGame.serialize A P S C out = (B1, none)) :
    ∃ pd sd, P.serialize C.player [] = (pd, none) ∧
      S.serialize C.state [] = (sd, none) ∧
      B1 = out ++ (C._begin ++ (u32le C.zip_offset ++ (C._no_mans_land ++
        A.pack ([("player.sav", pd), ("state.sav", sd)] ++
          (match C._world_save_package with
           | some w => [("WorldSavePackage.sav", w.data)]
           | none => []))))) :=
  Me1SaveGame.serialize_ok_inv A P S C out B1 h

/-- Witness for C8: entry order at the concrete witness container. -/
theorem me1_entry_order_witness :
    ∃ pd sd, opqCodec.serialize witnessContainer.player [] = (pd, none) ∧
      opqCodec.serialize witnessContainer.state [] = (sd, none) ∧
      (Me1SaveGame.serialize myArchive opqCodec opqCodec witnessContainer []).1 =
        [] ++ (witnessContainer._begin ++ (u32le witnessContainer.zip_offset ++
          (witnessContainer._no_mans_land ++
            myArchive.pack ([("player.sav", pd), ("state.sav", sd)] ++
              (match witnessContainer._world_save_package with
               | some w => [("WorldSavePackage.sav", w.data)]
               | none => []))))) :=
  me1_entry_order myArchive opqCodec opqCodec witnessContainer []
    (Me1SaveGame.serialize myArchive opqCodec opqCodec witnessContainer []).1
    (by rfl)

/-- C9 (amended). Encode aborts at the first nested-collaborator failure —
whether the player encode fails, or the player encode succeeds and the
state encode fails — with that collaborator's error and writes no archive
bytes, but the header bytes (marker, stored offset, pre-archive region)
appended to the caller's buffer before the failure remain there: the
buffer is not restored. Decode fails atomically: on every buffer it
returns either a complete container value or a single error, and when it
returns the error no container result is observable. -/
theorem me1_encode_failure_keeps_header (A : ArchiveModel) (P : Codec π) (S : Codec σ)
    (C : Me1SaveGame π σ) (out : List Byte) (e : SaveError)
    (hfail : (∃ pd, P.serialize C.player [] = (pd, some e)) ∨
      (∃ pd sd, P.serialize C.player [] = (pd, none) ∧
        S.serialize C.state [] = (sd, some e))) :
    Me1SaveGame.serialize A P S C out =
      (out ++ (C._begin ++ (u32le C.zip_offset ++ C._no_mans_land)), some e) ∧
    ∀ B : List Byte,
      (∃ C' c', Me1SaveGame.deserialize A P S (SaveCursor.new B) = .ok (C', c')) ∨
      (∃ e', Me1SaveGame.deserialize A P S (SaveCursor.new B) = .error e' ∧
        ∀ C' c', Me1SaveGame.deserialize A P S (SaveCursor.new B) ≠ .ok (C', c')) := by
  constructor
  · rcases hfail with ⟨pd, hp⟩ | ⟨pd, sd, hp, hs⟩
    · unfold Me1SaveGame.serialize dummySerialize u32Serialize
      simp [hp, List.append_assoc]
    · unfold Me1SaveGame.serialize dummySerialize u32Serialize
      simp [hp, hs, List.append_assoc]
  · intro B
    rcases hd : Me1SaveGame.deserialize A P S (SaveCursor.new B) with e' | ⟨C', c'⟩
    · exact Or.inr ⟨e', rfl, fun C' c' hcontra => Except.noConfusion hcontra⟩
    · exact Or.inl ⟨C', c', rfl⟩

/-- A container for exercising the encode failure path. -/
def failContainer : Me1SaveGame Unit Unit :=
  ⟨List.replicate 8 0, 12, [], (), (), none⟩

/-- Counterexample to C9 as stated: when the player collaborator's encode
fails, the container encode reports the error but the caller's buffer
(empty before the call) is left holding the already-written header bytes,
not its original contents. -/
theorem me1_encode_partial_write_counterexample :
    (Me1SaveGame.serialize myArchive failSerCodec unitCodec failContainer []).2 =
      some (.custom "player serialize failed") ∧
    (Me1SaveGame.serialize myArchive failSerCodec unitCodec failContainer []).1 ≠
      [] :=
  ⟨by rfl, by decide⟩

/-- Witness for the amended C9: the encode-failure theorem applied to the
concrete failing collaborator. -/
theorem me1_encode_failure_keeps_header_witness :
    (Me1SaveGame.serialize myArchive failSerCodec unitCodec failContainer [] =
      ([] ++ (failContainer._begin ++ (u32le failContainer.zip_offset ++
        failContainer._no_mans_land)), some (.custom "player serialize failed"))) ∧
    ∀ B : List Byte,
      (∃ C' c', Me1SaveGame.deserialize myArchive failSerCodec unitCodec
        (SaveCursor.new B) = .ok (C', c')) ∨
      (∃ e', Me1SaveGame.deserialize myArchive failSerCodec unitCodec
          (SaveCursor.new B) = .error e' ∧
        ∀ C' c', Me1SaveGame.deserialize myArchive failSerCodec unitCodec
          (SaveCursor.new B) ≠ .ok (C', c')) :=
  me1_encode_failure_keeps_header myArchive failSerCodec unitCodec failContainer
    [] (.custom "player serialize failed") (Or.inl ⟨[], by rfl⟩)

/-- C10. The world-save-package codec: decode consumes all bytes from the
cursor position to the end of the buffer and stores exactly those bytes;
encode appends exactly the stored bytes to the output and always succeeds;
hence encode after decode appends exactly the bytes that remained in the
cursor. -/
theorem wsp_roundtrip (b : List Byte) (p : Nat) (d out : List Byte) :
    WorldSavePackage.deserialize ⟨b, p⟩ = .ok (⟨b.drop p⟩, ⟨b, b.length⟩) ∧
    WorldSavePackage.serialize ⟨d⟩ out = (out ++ d, none) ∧
    (WorldSavePackage.deserialize ⟨b, p⟩).map
      (fun r => WorldSavePackage.serialize r.1 out) = .ok (out ++ b.drop p, none) :=
  ⟨rfl, rfl, rfl⟩

/-- The re-encoding of the decoded witness container. -/
def witnessReencoded : List Byte :=
  (Me1SaveGame.serialize myArchive opqCodec opqCodec witnessContainer []).1

/-- Witness for C2: opaque preservation at the concrete witness buffer and
its re-encoding. -/
theorem me1_opaque_preservation_witness :
    witnessContainer._begin = witnessContainer._begin ∧
    witnessContainer._no_mans_land = witnessContainer._no_mans_land :=
  me1_opaque_preservation myArchive opqCodec opqCodec
    witnessBuffer witnessReencoded witnessContainer witnessContainer
    ⟨witnessBuffer, witnessBuffer.length⟩ ⟨witnessReencoded, witnessReencoded.length⟩
    (by rfl) (by rfl)
    (by set_option maxRecDepth 4000 in rfl)
